import Mathlib

/-!
Verification of the hybrid movie-recommender core.

This file gives a shallow embedding of the algorithmic core of the
repository (the `HybridRecommender` class in
`src/models/hybrid_recommender.py` and the `UserInteractionTracker` class
in `src/utils/user_interactions.py`) and proves properties about it.

Modelling conventions:
* Python floats are modelled as exact rationals (`ℚ`); none of the
  verified properties depends on floating-point rounding.
* Python dicts that are only updated key-by-key are modelled as
  association lists that update the first matching key in place and
  append new keys at the end (CPython dicts preserve insertion order).
* Python's stable `sorted(..., key=..., reverse=True)` is modelled by
  Mathlib's stable `List.insertionSort` with the relation
  "left element's key is ≥ right element's key": for a total preorder the
  output of a stable sort is unique, so any stable implementation agrees
  with CPython's Timsort.
* The on-disk per-user event directories are modelled as an association
  list from user id to a list of `(integer-truncated timestamp, event)`
  files; writing a file with an existing name overwrites it, as on a
  filesystem.
* `sklearn.metrics.pairwise.cosine_similarity` is an external library and
  is taken as a function parameter wherever the code calls it; no verified
  property depends on the numeric similarity values it produces.
-/

/-- A catalog row of the movie list (`movie_id`, `title` columns of the
pickled dataframe). -/
structure Movie where
  movie_id : Int
  title : String
deriving DecidableEq

/-- A stored interaction event (the JSON object written by
`UserInteractionTracker.record_interaction` / read back by the
aggregators).  Optional JSON fields are `Option`s; `interaction_type` is
optional because the aggregators default a missing type to `"view"`. -/
structure Interaction where
  user_id : String := ""
  movie_id : Option Int := none
  interaction_type : Option String := none
  timestamp : ℚ := 0
  rating : Option ℚ := none
  watch_duration : Option ℚ := none
deriving DecidableEq

/-- One element of a recommendation result list: the `id`, `title` and
`similarity_score` fields of the dicts built by the rankers (the
`poster_url` field is derived from `id` and carries no information). -/
structure RecItem where
  id : Int
  title : String
  score : ℚ
deriving DecidableEq

/-- The relation "the key of the left element is at least the key of the
right element"; sorting a list with it stably yields Python's
`sorted(..., key=f, reverse=True)`. -/
def descBy {α : Type} {β : Type} [LinearOrder β] (f : α → β) (a b : α) : Prop :=
  f b ≤ f a

instance {α β : Type} [LinearOrder β] (f : α → β) : DecidableRel (descBy f) :=
  fun a b => inferInstanceAs (Decidable (f b ≤ f a))

instance {α β : Type} [LinearOrder β] (f : α → β) : IsTotal α (descBy f) :=
  ⟨fun a b => le_total (f b) (f a)⟩

instance {α β : Type} [LinearOrder β] (f : α → β) : IsTrans α (descBy f) :=
  ⟨fun _ _ _ h1 h2 => le_trans h2 h1⟩

/-- Stable descending sort by a key, modelling Python's
`sorted(..., key=f, reverse=True)` (CPython's sort is stable and
`reverse=True` does not reorder equal keys). -/
def sortDescBy {α : Type} {β : Type} [LinearOrder β] (f : α → β) (l : List α) : List α :=
  List.insertionSort (descBy f) l

/-- The fixed interaction-type weight table of `_get_user_preferences` /
`get_user_movie_preferences` (`weights.get(interaction_type, 1.0)`). -/
def interactionWeight (t : String) : ℚ :=
  if t = "view" then 1
  else if t = "click" then 2
  else if t = "rate" then 5
  else if t = "watch" then 3
  else if t = "recommend" then 1/2
  else 1

/-- The score a single event contributes, per the loop body of
`_get_user_preferences` (hybrid_recommender.py lines 129-141, identically
user_interactions.py lines 142-154): base weight from the table, times
`rating / 2.5` when a rating is present, times
`1.0 + min(watch_duration / 3600, 2.0) / 2.0` when a duration is
present. -/
def eventScore (e : Interaction) : ℚ :=
  let base := interactionWeight (e.interaction_type.getD "view")
  let afterRating :=
    match e.rating with
    | some r => base * (r / (5/2))
    | none => base
  match e.watch_duration with
  | some d => afterRating * (1 + min (d / 3600) 2 / 2)
  | none => afterRating

/-- Dict update `preferences[m] = (preferences[m] + s) / 2` when the key
exists, `preferences[m] = s` otherwise (keys are unique by construction,
insertion order preserved). -/
def addPreference : List (Int × ℚ) → Int → ℚ → List (Int × ℚ)
  | [], m, s => [(m, s)]
  | (m', v) :: rest, m, s =>
    if m' = m then (m', (v + s) / 2) :: rest
    else (m', v) :: addPreference rest m s

/-- One iteration of the aggregation loop.  `if not movie_id: continue`
skips the event when `movie_id` is the JSON value `null` *or* the falsy
integer `0`. -/
def prefStep (prefs : List (Int × ℚ)) (e : Interaction) : List (Int × ℚ) :=
  match e.movie_id with
  | none => prefs
  | some m => if m = 0 then prefs else addPreference prefs m (eventScore e)

/-- The preference aggregator: fold the events in processing order into a
movie → score dict (`_get_user_preferences` lines 119-151 /
`get_user_movie_preferences` lines 136-161). -/
def aggregatePreferences (events : List Interaction) : List (Int × ℚ) :=
  events.foldl prefStep []

/-- Look up a movie's aggregated preference score. -/
def lookupPref (prefs : List (Int × ℚ)) (m : Int) : Option ℚ :=
  (prefs.find? (fun p => p.1 = m)).map Prod.snd

/-! ## Interaction Store (`UserInteractionTracker`) -/

/-- Python's `int()` truncation toward zero on a rational (used for the
event's file name `f"{int(timestamp)}.json"`). -/
def pyInt (q : ℚ) : Int :=
  if q < 0 then -⌊-q⌋ else ⌊q⌋

/-- A user's directory: the list of `(int(timestamp), event)` files, in
creation order. -/
abbrev UserDir := List (Int × Interaction)

/-- The storage root: one directory per user. -/
abbrev IStore := List (String × UserDir)

/-- Write file `k.json` into a directory: overwrite the file with the
same name if it exists (same-second collision, last write wins), create
it otherwise. -/
def putFile : UserDir → Int → Interaction → UserDir
  | [], k, e => [(k, e)]
  | (k', e') :: rest, k, e =>
    if k' = k then (k, e) :: rest
    else (k', e') :: putFile rest k e

/-- Write a file into a user's directory, creating the directory if it
does not exist (`os.makedirs(user_dir, exist_ok=True)`). -/
def putUser : IStore → String → Int → Interaction → IStore
  | [], u, k, e => [(u, putFile [] k e)]
  | (v, fs) :: rest, u, k, e =>
    if v = u then (v, putFile fs k e) :: rest
    else (v, fs) :: putUser rest u k e

/-- The files of a user's directory, empty when the directory is
missing. -/
def userFiles : IStore → String → UserDir
  | [], _ => []
  | (v, fs) :: rest, u => if v = u then fs else userFiles rest u

/-- The event record assembled by `record_interaction`
(user_interactions.py lines 44-59): rating clamped into `[1, 5]` by
`max(min(float(rating), 5.0), 1.0)`, watch duration clamped to `≥ 0` by
`max(0, int(watch_duration))`. -/
def mkInteraction (userId : String) (movieId : Int) (ty : String)
    (rating : Option ℚ) (watchDuration : Option Int) (ts : ℚ) : Interaction :=
  { user_id := userId
    movie_id := some movieId
    interaction_type := some ty
    timestamp := ts
    rating := rating.map (fun r => max (min r 5) 1)
    watch_duration := watchDuration.map (fun d => ((max 0 d : Int) : ℚ)) }

/-- `record_interaction`: build the clamped event record and persist it
under `storage_path/user_id/{int(timestamp)}.json`. -/
def recordInteraction (store : IStore) (userId : String) (movieId : Int)
    (ty : String) (rating : Option ℚ) (watchDuration : Option Int) (ts : ℚ) : IStore :=
  putUser store userId (pyInt ts) (mkInteraction userId movieId ty rating watchDuration ts)

/-- The per-event filter of `get_user_interactions`:
`if interaction_types and interaction.get("interaction_type") not in
interaction_types: continue` (an empty filter list is falsy and disables
filtering; a missing type never matches a non-empty filter). -/
def keepType (types : Option (List String)) (e : Interaction) : Bool :=
  match types with
  | none => true
  | some tl =>
    if tl.isEmpty then true
    else
      match e.interaction_type with
      | some t => t ∈ tl
      | none => false

/-- `get_user_interactions`: sort the user's files newest-first, keep the
first `limit`, read them back, apply the optional type filter.  (The code
sorts the file-name strings; the names are decimal renderings of the
integer timestamps, so for the timestamps arising in one run the order is
the numeric one modelled here.) -/
def getUserInteractions (store : IStore) (userId : String) (limit : Nat)
    (types : Option (List String)) : List Interaction :=
  ((((sortDescBy Prod.fst (userFiles store userId)).take limit).map Prod.snd).filter
    (keepType types))

/-! ## Content Ranker (`_get_content_based_recommendations`) -/

/-- `_get_content_based_recommendations` (hybrid_recommender.py lines
179-198): find the first catalog row whose title matches exactly; pair
every catalog position with its similarity value from that movie's row;
stable-sort descending by value; drop the first entry; keep the next `n`;
format each as a `RecItem`.  An unknown title yields `[]`; index errors
are caught by the surrounding `except` and also yield `[]` (modelled by
the `getD`/`filterMap` defaults). -/
def getContentBasedRecommendations (movies : List Movie) (sim : List (List ℚ))
    (title : String) (n : Nat) : List RecItem :=
  match movies.findIdx? (fun mv => mv.title = title) with
  | none => []
  | some idx =>
    let row := sim.getD idx []
    let distances := sortDescBy Prod.snd row.enum
    ((distances.drop 1).take n).filterMap (fun p =>
      (movies.get? p.1).map (fun mv =>
        { id := mv.movie_id, title := mv.title, score := p.2 }))

/-! ## User-Similarity Index (`_initialize_user_matrices`) -/

/-- Dict update `recommendations[m] += s` / `recommendations[m] = s` used
when accumulating weighted neighbor scores. -/
def addWeighted : List (Int × ℚ) → Int → ℚ → List (Int × ℚ)
  | [], m, s => [(m, s)]
  | (m', v) :: rest, m, s =>
    if m' = m then (m', v + s) :: rest
    else (m', v) :: addWeighted rest m s

/-- A user-similarity matrix, as an association list from user id to that
user's row of `(other user, similarity)` entries. -/
abbrev SimMatrix := List (String × List (String × ℚ))

/-- The union of the movie ids of all users' preference vectors (the
column set of the user-movie dataframe; it is empty exactly when the
dataframe `fillna(0)` has no columns, i.e. is `.empty`). -/
def allPrefMovieIds (prefVectors : List (String × List (Int × ℚ))) : List Int :=
  prefVectors.foldl (fun acc u => u.2.foldl (fun acc2 p => acc2 ++ [p.1]) acc) []

/-- `_initialize_user_matrices` + `_calculate_user_similarity`
(hybrid_recommender.py lines 52-85 and 153-166), rebuilt from scratch:
aggregate every known user's preference vector; if fewer than 2 users
exist the similarity matrix stays `None`; it also stays `None` when the
user-movie dataframe is empty (no columns at all); otherwise it is the
pairwise cosine-similarity matrix.  `cosineMatrix` stands for the
external `sklearn.metrics.pairwise.cosine_similarity` call on the
zero-filled user-movie matrix. -/
def buildUserSimilarity
    (cosineMatrix : List (String × List (Int × ℚ)) → SimMatrix)
    (store : List (String × List Interaction)) : Option SimMatrix :=
  let prefVectors := store.map (fun u => (u.1, aggregatePreferences u.2))
  if 1 < store.length then
    if (allPrefMovieIds prefVectors).isEmpty then none
    else some (cosineMatrix prefVectors)
  else none

/-! ## Collaborative Ranker (`_get_collaborative_recommendations`) -/

/-- The accumulation loop of `_get_collaborative_recommendations`
(hybrid_recommender.py lines 218-242): take the user's similarity row,
sort descending, keep entries 1..10 (drop self, top 10 neighbors); for
each neighbor and each movie of the neighbor's preference vector that the
target user has not interacted with, add
`neighbor score × neighbor similarity` to that movie's running total. -/
def collabCandidateScores (simRow : List (String × ℚ))
    (prefs : String → List (Int × ℚ)) (userId : String) : List (Int × ℚ) :=
  let similarUsers := ((sortDescBy Prod.snd simRow).drop 1).take 10
  let userMovies := (prefs userId).map Prod.fst
  similarUsers.foldl (fun recs su =>
    (prefs su.1).foldl (fun recs2 p =>
      if p.1 ∈ userMovies then recs2
      else addWeighted recs2 p.1 (p.2 * su.2)) recs) []

/-- `_get_collaborative_recommendations` (hybrid_recommender.py lines
203-267): empty when the user is unknown or the similarity matrix is
absent; otherwise sort the accumulated per-movie totals descending, cut
to the top `n`, and format each total whose movie id has a catalog entry
(candidates with no catalog entry are silently dropped).  A user missing
from the matrix labels raises a `KeyError` caught by the surrounding
`except`, yielding `[]` (modelled by the `getD []` empty row). -/
def getCollaborativeRecommendations (movies : List Movie)
    (userIds : List String) (simMatrix : Option SimMatrix)
    (prefs : String → List (Int × ℚ)) (userId : String) (n : Nat) : List RecItem :=
  match simMatrix with
  | none => []
  | some mat =>
    if userId ∈ userIds then
      let simRow := ((mat.find? (fun r => r.1 = userId)).map Prod.snd).getD []
      let sortedRecs := (sortDescBy Prod.snd (collabCandidateScores simRow prefs userId)).take n
      sortedRecs.filterMap (fun p =>
        match movies.find? (fun mv => mv.movie_id = p.1) with
        | some mv => some { id := p.1, title := mv.title, score := p.2 }
        | none => none)
    else []

/-! ## Hybrid Merger (`get_recommendations` lines 294-332) -/

/-- The lookup dict `{rec['id']: rec for rec in recs}`: when ids repeat,
the later record wins, as in a dict comprehension. -/
def recDict (recs : List RecItem) (m : Int) : Option RecItem :=
  recs.reverse.find? (fun r => r.id = m)

/-- One side's score for a movie:
`dict.get(movie_id, {}).get('similarity_score', 0)`. -/
def sideScore (recs : List RecItem) (m : Int) : ℚ :=
  ((recDict recs m).map RecItem.score).getD 0

/-- The weighted hybrid score of lines 311-318. -/
def hybridScore (cw kw : ℚ) (content collab : List RecItem) (m : Int) : ℚ :=
  cw * sideScore content m + kw * sideScore collab m

/-- First-occurrence deduplication (accumulating the ids already seen). -/
def dedupSeen (seen : List Int) : List Int → List Int
  | [] => []
  | x :: xs =>
    if x ∈ seen then dedupSeen seen xs
    else x :: dedupSeen (x :: seen) xs

/-- The union `set(content_dict.keys()) | set(collab_dict.keys())` of
movie ids of the two sides.  CPython's set iteration order is
unspecified; it is modelled as first-occurrence order, and no claim
proved below depends on the choice (it only affects tie-breaking among
equal hybrid scores). -/
def unionIds (content collab : List RecItem) : List Int :=
  dedupSeen [] (content.map RecItem.id ++ collab.map RecItem.id)

/-- Format one merged entry (lines 324-330): prefer the content-side
record for the metadata, fall back to the collaborative side, and
overwrite its score with the hybrid score. -/
def mergeItem (content collab : List RecItem) (p : Int × ℚ) : Option RecItem :=
  match recDict content p.1 with
  | some r => some { r with score := p.2 }
  | none =>
    match recDict collab p.1 with
    | some r => some { r with score := p.2 }
    | none => none

/-- The Hybrid Merger (`get_recommendations` lines 294-332): if one side
is empty return the other side's first `n` items unchanged; otherwise
score the union of movie ids with the weighted hybrid score, stable-sort
descending, keep the top `n` and format them. -/
def mergeRecommendations (cw kw : ℚ) (content collab : List RecItem)
    (n : Nat) : List RecItem :=
  match content, collab with
  | [], _ => collab.take n
  | _, [] => content.take n
  | _, _ =>
    let scored := (unionIds content collab).map
      (fun m => (m, hybridScore cw kw content collab m))
    ((sortDescBy Prod.snd scored).take n).filterMap (mergeItem content collab)

/-! ## Top-level orchestration (`get_recommendations` lines 269-332) -/

/-- The per-user event lists the recommender reads back from the storage
root (one list per user directory). -/
abbrev EventStore := List (String × List Interaction)

/-- The events of one user's directory. -/
def userEvents : EventStore → String → List Interaction
  | [], _ => []
  | (v, es) :: rest, u => if v = u then es else userEvents rest u

/-- `HybridRecommender.get_recommendations`: refresh the user matrices,
run the content ranker when a (truthy, i.e. non-empty) movie title is
supplied and the collaborative ranker when a known truthy user id is
supplied (each with headroom `n*2`), then merge.  Supplying neither
identifier yields `[]` through the empty-side fallback. -/
def getRecommendations (movies : List Movie) (sim : List (List ℚ))
    (cosineMatrix : List (String × List (Int × ℚ)) → SimMatrix)
    (store : EventStore) (cw kw : ℚ)
    (movieTitle : Option String) (userId : Option String) (n : Nat) : List RecItem :=
  let userIds := store.map Prod.fst
  let simMatrix := buildUserSimilarity cosineMatrix store
  let contentRecs :=
    match movieTitle with
    | some t => if t = "" then [] else getContentBasedRecommendations movies sim t (n * 2)
    | none => []
  let collabRecs :=
    match userId with
    | some u =>
      if u ≠ "" ∧ u ∈ userIds then
        getCollaborativeRecommendations movies userIds simMatrix
          (fun v => aggregatePreferences (userEvents store v)) u (n * 2)
      else []
    | none => []
  mergeRecommendations cw kw contentRecs collabRecs n

/-! ## Helper lemmas -/

theorem interactionWeight_view : interactionWeight "view" = 1 := by decide

theorem interactionWeight_click : interactionWeight "click" = 2 := by decide

theorem interactionWeight_rate : interactionWeight "rate" = 5 := by decide

theorem interactionWeight_watch : interactionWeight "watch" = 3 := by decide

theorem interactionWeight_recommend : interactionWeight "recommend" = 1/2 := by
  unfold interactionWeight
  rw [if_neg (by decide), if_neg (by decide), if_neg (by decide), if_neg (by decide),
    if_pos rfl]

theorem interactionWeight_unknown (t : String) (h1 : t ≠ "view") (h2 : t ≠ "click")
    (h3 : t ≠ "rate") (h4 : t ≠ "watch") (h5 : t ≠ "recommend") :
    interactionWeight t = 1 := by
  unfold interactionWeight
  rw [if_neg h1, if_neg h2, if_neg h3, if_neg h4, if_neg h5]

/-- `eventScore` in closed product form: the sequential `score *= ...`
updates amount to one product of a base weight, a rating factor and a
duration factor. -/
theorem eventScore_eq_product (e : Interaction) :
    eventScore e =
      interactionWeight (e.interaction_type.getD "view")
        * (match e.rating with | some r => r / (5/2) | none => 1)
        * (match e.watch_duration with | some d => 1 + min (d / 3600) 2 / 2 | none => 1) := by
  unfold eventScore
  cases e.rating <;> cases e.watch_duration <;> simp

/-! ## C2 -/

/-- C2: a single interaction event's score is the base weight from the
table `{view: 1, click: 2, rate: 5, watch: 3, recommend: 0.5}` (1 for
unknown types), multiplied by `rating / 2.5` when a rating is present and
by `1 + min(watch_duration / 3600, 2) / 2` when a watch duration is
present; a lone `rate` event with rating 5 scores 10, a lone `watch`
event with duration 7200 scores 6, and the duration factor stays capped
at 2 even for duration 10800 (score again 6). -/
theorem single_event_score :
    (interactionWeight "view" = 1 ∧ interactionWeight "click" = 2
      ∧ interactionWeight "rate" = 5 ∧ interactionWeight "watch" = 3
      ∧ interactionWeight "recommend" = 1/2)
    ∧ (∀ t : String, t ≠ "view" → t ≠ "click" → t ≠ "rate" → t ≠ "watch" →
        t ≠ "recommend" → interactionWeight t = 1)
    ∧ (∀ e : Interaction, eventScore e =
        interactionWeight (e.interaction_type.getD "view")
          * (match e.rating with | some r => r / (5/2) | none => 1)
          * (match e.watch_duration with | some d => 1 + min (d / 3600) 2 / 2 | none => 1))
    ∧ eventScore { interaction_type := some "rate", rating := some 5 } = 10
    ∧ eventScore { interaction_type := some "watch", watch_duration := some 7200 } = 6
    ∧ eventScore { interaction_type := some "watch", watch_duration := some 10800 } = 6 := by
  refine ⟨⟨interactionWeight_view, interactionWeight_click, interactionWeight_rate,
    interactionWeight_watch, interactionWeight_recommend⟩,
    interactionWeight_unknown, eventScore_eq_product, ?_, ?_, ?_⟩
  · rw [eventScore_eq_product]; norm_num [interactionWeight_rate]
  · rw [eventScore_eq_product]; norm_num [interactionWeight_watch]
  · rw [eventScore_eq_product]; norm_num [interactionWeight_watch]

/-! ## C3 -/

/-- Folding events that all target the movie `m` over a one-entry dict
keeps one entry and halves-and-adds the running value at each step. -/
theorem foldl_prefStep_single_movie (m : Int) (hm : m ≠ 0) :
    ∀ (rest : List Interaction) (acc : ℚ), (∀ e' ∈ rest, e'.movie_id = some m) →
      rest.foldl prefStep [(m, acc)] =
        [(m, (rest.map eventScore).foldl (fun a s => (a + s) / 2) acc)] := by
  intro rest
  induction rest with
  | nil => intro acc _; simp
  | cons e' rest' ih =>
    intro acc hall
    have h1 : e'.movie_id = some m := hall e' (by simp)
    have h2 : prefStep [(m, acc)] e' = [(m, (acc + eventScore e') / 2)] := by
      simp [prefStep, h1, hm, addPreference]
    simp only [List.foldl_cons, List.map_cons, h2]
    exact ih _ (fun x hx => hall x (by simp [hx]))

/-- A concrete `view` event on movie 7. -/
def evView7 : Interaction := { movie_id := some 7, interaction_type := some "view" }

/-- A concrete `click` event on movie 7. -/
def evClick7 : Interaction := { movie_id := some 7, interaction_type := some "click" }

/-- A concrete `rate` event (no rating payload) on movie 7. -/
def evRate7 : Interaction := { movie_id := some 7, interaction_type := some "rate" }

theorem eventScore_evView7 : eventScore evView7 = 1 := by
  rw [eventScore_eq_product]; norm_num [evView7, interactionWeight_view]

theorem eventScore_evClick7 : eventScore evClick7 = 2 := by
  rw [eventScore_eq_product]; norm_num [evClick7, interactionWeight_click]

theorem eventScore_evRate7 : eventScore evRate7 = 5 := by
  rw [eventScore_eq_product]; norm_num [evRate7, interactionWeight_rate]

/-- C3: for events all targeting the same movie, the aggregator's final
score for that movie is the left fold that starts from the first event's
score and replaces the running value by `(old + new) / 2` at each
subsequent event; consequently the result is order-dependent and is not
the arithmetic mean of the event scores (witnessed on three concrete
events with scores 1, 2, 5: one order gives 13/4, the reverse 9/4, the
mean is 8/3). -/
theorem preference_running_average_fold :
    (∀ (m : Int) (e : Interaction) (rest : List Interaction),
      m ≠ 0 → e.movie_id = some m → (∀ e' ∈ rest, e'.movie_id = some m) →
      aggregatePreferences (e :: rest) =
        [(m, (rest.map eventScore).foldl (fun acc s => (acc + s) / 2) (eventScore e))])
    ∧ aggregatePreferences [evView7, evClick7, evRate7] = [(7, 13/4)]
    ∧ aggregatePreferences [evRate7, evClick7, evView7] = [(7, 9/4)]
    ∧ aggregatePreferences [evView7, evClick7, evRate7] ≠
        aggregatePreferences [evRate7, evClick7, evView7]
    ∧ aggregatePreferences [evView7, evClick7, evRate7] ≠
        [(7, (eventScore evView7 + eventScore evClick7 + eventScore evRate7) / 3)] := by
  have hmain : ∀ (m : Int) (e : Interaction) (rest : List Interaction),
      m ≠ 0 → e.movie_id = some m → (∀ e' ∈ rest, e'.movie_id = some m) →
      aggregatePreferences (e :: rest) =
        [(m, (rest.map eventScore).foldl (fun acc s => (acc + s) / 2) (eventScore e))] := by
    intro m e rest hm he hall
    have h0 : prefStep [] e = [(m, eventScore e)] := by
      simp [prefStep, he, hm, addPreference]
    unfold aggregatePreferences
    simp only [List.foldl_cons, h0]
    exact foldl_prefStep_single_movie m hm rest (eventScore e) hall
  have h1 : aggregatePreferences [evView7, evClick7, evRate7] = [(7, 13/4)] := by
    rw [hmain 7 evView7 [evClick7, evRate7] (by norm_num) rfl
      (by intro e' he'; simp at he'; rcases he' with h | h <;> subst h <;> rfl)]
    simp [eventScore_evView7, eventScore_evClick7, eventScore_evRate7]
    norm_num
  have h2 : aggregatePreferences [evRate7, evClick7, evView7] = [(7, 9/4)] := by
    rw [hmain 7 evRate7 [evClick7, evView7] (by norm_num) rfl
      (by intro e' he'; simp at he'; rcases he' with h | h <;> subst h <;> rfl)]
    simp [eventScore_evView7, eventScore_evClick7, eventScore_evRate7]
    norm_num
  refine ⟨hmain, h1, h2, ?_, ?_⟩
  · rw [h1, h2]; norm_num
  · rw [h1, eventScore_evView7, eventScore_evClick7, eventScore_evRate7]; norm_num

/-! ## C9 -/

theorem mem_keys_addPreference (prefs : List (Int × ℚ)) (m : Int) (s : ℚ) (k : Int) :
    k ∈ (addPreference prefs m s).map Prod.fst ↔ k ∈ prefs.map Prod.fst ∨ k = m := by
  induction prefs with
  | nil => simp [addPreference]
  | cons p rest ih =>
    obtain ⟨m', v⟩ := p
    by_cases h : m' = m
    · subst h
      have hup : addPreference ((m', v) :: rest) m' s = (m', (v + s) / 2) :: rest := by
        simp [addPreference]
      rw [hup]
      simp only [List.map_cons, List.mem_cons]
      tauto
    · simp only [addPreference, if_neg h, List.map_cons, List.mem_cons, ih]
      tauto

theorem mem_keys_foldl_prefStep (events : List Interaction) :
    ∀ (acc : List (Int × ℚ)) (k : Int),
      k ∈ (events.foldl prefStep acc).map Prod.fst ↔
        k ∈ acc.map Prod.fst ∨ ∃ e ∈ events, e.movie_id = some k ∧ k ≠ 0 := by
  induction events with
  | nil => simp
  | cons e rest ih =>
    intro acc k
    simp only [List.foldl_cons]
    rw [ih]
    cases he : e.movie_id with
    | none =>
      have hstep : prefStep acc e = acc := by simp [prefStep, he]
      rw [hstep]
      constructor
      · rintro (h | ⟨e', he', hp⟩)
        · exact Or.inl h
        · exact Or.inr ⟨e', List.mem_cons_of_mem _ he', hp⟩
      · rintro (h | ⟨e', he', hp⟩)
        · exact Or.inl h
        · rcases List.mem_cons.mp he' with rfl | hmem
          · rw [he] at hp; cases hp.1
          · exact Or.inr ⟨e', hmem, hp⟩
    | some m =>
      by_cases hm : m = 0
      · subst hm
        have hstep : prefStep acc e = acc := by simp [prefStep, he]
        rw [hstep]
        constructor
        · rintro (h | ⟨e', he', hp⟩)
          · exact Or.inl h
          · exact Or.inr ⟨e', List.mem_cons_of_mem _ he', hp⟩
        · rintro (h | ⟨e', he', hp⟩)
          · exact Or.inl h
          · rcases List.mem_cons.mp he' with rfl | hmem
            · exact absurd (Option.some.inj (he.symm.trans hp.1)).symm hp.2
            · exact Or.inr ⟨e', hmem, hp⟩
      · have hstep : prefStep acc e = addPreference acc m (eventScore e) := by
          simp [prefStep, he, hm]
        rw [hstep, mem_keys_addPreference]
        constructor
        · rintro ((h | rfl) | ⟨e', he', hp⟩)
          · exact Or.inl h
          · exact Or.inr ⟨e, List.mem_cons_self e rest, he, hm⟩
          · exact Or.inr ⟨e', List.mem_cons_of_mem _ he', hp⟩
        · rintro (h | ⟨e', he', hp⟩)
          · exact Or.inl (Or.inl h)
          · rcases List.mem_cons.mp he' with rfl | hmem
            · exact Or.inl (Or.inr (Option.some.inj (he.symm.trans hp.1)).symm)
            · exact Or.inr ⟨e', hmem, hp⟩

/-- C9 (amended): the preference aggregator skips exactly the events
whose `movie_id` is missing *or equal to 0* (Python's `if not movie_id`
treats the integer 0 as falsy); every event carrying a non-zero movie id
contributes a key for that movie, and the empty event list yields the
empty preference vector. -/
theorem preference_skips_falsy_movie_ids :
    (∀ (events : List Interaction) (m : Int),
      m ∈ (aggregatePreferences events).map Prod.fst ↔
        ∃ e ∈ events, e.movie_id = some m ∧ m ≠ 0)
    ∧ aggregatePreferences [] = [] := by
  constructor
  · intro events m
    unfold aggregatePreferences
    rw [mem_keys_foldl_prefStep]
    simp
  · rfl

/-- C9 counterexample: an event whose `movie_id` is present but equal to
0 is skipped by the aggregator, so "every event with a movie_id present
contributes" is false as stated. -/
theorem zero_movie_id_event_skipped :
    ({ movie_id := some 0, interaction_type := some "view" } : Interaction).movie_id
        = some 0
    ∧ aggregatePreferences [{ movie_id := some 0, interaction_type := some "view" }] = [] :=
  ⟨rfl, rfl⟩

/-! ## C7 -/

/-- C7 (amended): calling `get_recommendations` with neither
`movie_title` nor `user_id` returns the empty list — an empty successful
result flowing through the empty-side fallback, not an explicit failure;
rejecting such calls is left to the HTTP layer outside this core. -/
theorem no_identifier_empty_success (movies : List Movie) (sim : List (List ℚ))
    (cosineMatrix : List (String × List (Int × ℚ)) → SimMatrix)
    (store : EventStore) (cw kw : ℚ) (n : Nat) :
    getRecommendations movies sim cosineMatrix store cw kw none none n = [] := by
  simp only [getRecommendations, mergeRecommendations]
  exact List.take_nil

/-- C7 counterexample: at a concrete input with neither identifier the
core returns the empty list as an ordinary successful result (the
function's type has no failure channel and no exception is raised), so
"signalled as an explicit failure, not as an empty successful result" is
false of the code. -/
theorem no_identifier_empty_success_concrete :
    getRecommendations [] [] (fun _ => []) [] (7/10) (3/10) none none 5 = [] := rfl

/-! ## C4 -/

/-- C4: when exactly one of the two result lists is empty, the hybrid
merger returns the non-empty side's first `n` items unchanged (their
scores are not reweighted). -/
theorem merge_empty_side_fallback (cw kw : ℚ) (content collab : List RecItem) (n : Nat) :
    (content = [] → collab ≠ [] → mergeRecommendations cw kw content collab n = collab.take n)
    ∧ (collab = [] → content ≠ [] →
        mergeRecommendations cw kw content collab n = content.take n) := by
  constructor
  · rintro rfl hc
    obtain ⟨y, ys, rfl⟩ := List.exists_cons_of_ne_nil hc
    rfl
  · rintro rfl hc
    obtain ⟨x, xs, rfl⟩ := List.exists_cons_of_ne_nil hc
    rfl

/-! ## C5 -/

/-- C5: when fewer than 2 users have stored interactions, the rebuilt
user-similarity matrix is absent (`None`), and the collaborative ranker
consequently returns the empty sequence for every user, including the
sole known one. -/
theorem few_users_no_collaborative
    (cosineMatrix : List (String × List (Int × ℚ)) → SimMatrix)
    (store : List (String × List Interaction)) (movies : List Movie)
    (prefs : String → List (Int × ℚ)) (userId : String) (n : Nat)
    (h : store.length < 2) :
    buildUserSimilarity cosineMatrix store = none
    ∧ getCollaborativeRecommendations movies (store.map Prod.fst)
        (buildUserSimilarity cosineMatrix store) prefs userId n = [] := by
  have hnone : buildUserSimilarity cosineMatrix store = none := by
    simp only [buildUserSimilarity]
    rw [if_neg (by omega)]
  exact ⟨hnone, by rw [hnone]; rfl⟩

/-- C5 witness: a store holding exactly one user ("alice", the sole known
user) yields an absent similarity matrix and an empty collaborative
result for "alice" herself. -/
theorem few_users_no_collaborative_witness :
    buildUserSimilarity (fun _ => []) [("alice", ([] : List Interaction))] = none
    ∧ getCollaborativeRecommendations [] ([("alice", ([] : List Interaction))].map Prod.fst)
        (buildUserSimilarity (fun _ => []) [("alice", ([] : List Interaction))])
        (fun _ => []) "alice" 5 = [] :=
  few_users_no_collaborative (fun _ => []) [("alice", [])] [] (fun _ => []) "alice" 5
    (by decide)

/-! ## C8 -/

theorem userFiles_putUser (store : IStore) (u : String) (k : Int) (e : Interaction) :
    userFiles (putUser store u k e) u = putFile (userFiles store u) k e := by
  induction store with
  | nil => simp [putUser, userFiles]
  | cons p rest ih =>
    obtain ⟨v, fs⟩ := p
    by_cases h : v = u
    · subst h
      simp [putUser, userFiles]
    · simp [putUser, userFiles, h, ih]

theorem mem_putFile (fs : UserDir) (k : Int) (e : Interaction) : (k, e) ∈ putFile fs k e := by
  induction fs with
  | nil => simp [putFile]
  | cons p rest ih =>
    obtain ⟨k', e'⟩ := p
    by_cases h : k' = k
    · subst h
      simp [putFile]
    · simp only [putFile, if_neg h, List.mem_cons]
      exact Or.inr ih

/-- C8: recording a valid interaction event and then listing the same
user's interactions (with a limit at least the user's file count) returns
a sequence containing the stored event; its rating, when supplied, is
clamped into `[1, 5]`, its watch duration, when supplied, is clamped to
`≥ 0`, and the identifying fields are stored unchanged. -/
theorem record_then_list_returns_event (store : IStore) (u : String) (m : Int)
    (ty : String) (r : Option ℚ) (wd : Option Int) (ts : ℚ) (limit : Nat)
    (hlim : (userFiles (recordInteraction store u m ty r wd ts) u).length ≤ limit) :
    mkInteraction u m ty r wd ts ∈
      getUserInteractions (recordInteraction store u m ty r wd ts) u limit none
    ∧ (∀ x, r = some x → (mkInteraction u m ty r wd ts).rating = some (max (min x 5) 1)
        ∧ 1 ≤ max (min x 5) 1 ∧ max (min x 5) 1 ≤ 5)
    ∧ (∀ d, wd = some d →
        (mkInteraction u m ty r wd ts).watch_duration = some ((max 0 d : Int) : ℚ)
        ∧ (0 : ℚ) ≤ ((max 0 d : Int) : ℚ))
    ∧ (mkInteraction u m ty r wd ts).user_id = u
    ∧ (mkInteraction u m ty r wd ts).movie_id = some m
    ∧ (mkInteraction u m ty r wd ts).interaction_type = some ty
    ∧ (mkInteraction u m ty r wd ts).timestamp = ts := by
  refine ⟨?_, ?_, ?_, rfl, rfl, rfl, rfl⟩
  · unfold getUserInteractions
    have hfiles : userFiles (recordInteraction store u m ty r wd ts) u =
        putFile (userFiles store u) (pyInt ts) (mkInteraction u m ty r wd ts) := by
      unfold recordInteraction
      exact userFiles_putUser store u (pyInt ts) (mkInteraction u m ty r wd ts)
    rw [hfiles] at hlim ⊢
    set fs := putFile (userFiles store u) (pyInt ts) (mkInteraction u m ty r wd ts) with hfs
    have hsortlen : (sortDescBy Prod.fst fs).length = fs.length :=
      List.length_insertionSort _ fs
    have htake : (sortDescBy Prod.fst fs).take limit = sortDescBy Prod.fst fs :=
      List.take_of_length_le (hsortlen ▸ hlim)
    rw [htake]
    have hmem : (pyInt ts, mkInteraction u m ty r wd ts) ∈ sortDescBy Prod.fst fs :=
      (List.mem_insertionSort _).mpr (mem_putFile _ _ _)
    have hmem2 : mkInteraction u m ty r wd ts ∈ (sortDescBy Prod.fst fs).map Prod.snd :=
      List.mem_map_of_mem Prod.snd hmem
    exact List.mem_filter.mpr ⟨hmem2, rfl⟩
  · rintro x rfl
    refine ⟨rfl, le_max_right _ _, max_le (min_le_right _ _) (by norm_num)⟩
  · rintro d rfl
    exact ⟨rfl, by exact_mod_cast le_max_left 0 d⟩

/-- C8 witness: recording a `rate` event with out-of-range payloads
(rating 7, duration -5) for a fresh user and listing that user's
interactions returns the stored event (whose rating was clamped to 5 and
duration to 0). -/
theorem record_then_list_witness :
    mkInteraction "u1" 42 "rate" (some 7) (some (-5)) 100 ∈
      getUserInteractions (recordInteraction [] "u1" 42 "rate" (some 7) (some (-5)) 100)
        "u1" 100 none :=
  (record_then_list_returns_event [] "u1" 42 "rate" (some 7) (some (-5)) 100 100
    (by decide)).1

/-! ## C10 -/

/-- A one-movie catalog used to exhibit the silent drop of candidates
missing from the catalog. -/
def c10Movies : List Movie := [⟨1, "M1"⟩]

/-- User "u"'s similarity row: itself at 1, neighbor "v" at 1/2. -/
def c10Row : List (String × ℚ) := [("u", 1), ("v", 1/2)]

/-- A two-user similarity matrix. -/
def c10Mat : SimMatrix := [("u", c10Row), ("v", [("u", 1/2), ("v", 1)])]

/-- Preference vectors: "v" likes movie 1 (score 2) and movie 99 (score
5); movie 99 has no catalog entry. -/
def c10Prefs : String → List (Int × ℚ) := fun v => if v = "v" then [(1, 2), (99, 5)] else []

theorem c10Prefs_u : c10Prefs "u" = [] := by decide

theorem c10Prefs_v : c10Prefs "v" = [(1, 2), (99, 5)] := by decide

/-- C10: every item returned by the collaborative ranker has a movie id
present in the catalog; candidates with no catalog entry are dropped only
after the top-`n` cut, so the ranker can return fewer than `n` items even
though at least `n` candidates were scored (concretely: two candidates
are scored for user "u", but movie 99 has no catalog entry, so the ranker
returns one item for `n = 2`). -/
theorem collaborative_results_in_catalog :
    (∀ (movies : List Movie) (userIds : List String) (simMatrix : Option SimMatrix)
      (prefs : String → List (Int × ℚ)) (userId : String) (n : Nat),
      ∀ r ∈ getCollaborativeRecommendations movies userIds simMatrix prefs userId n,
        r.id ∈ movies.map Movie.movie_id)
    ∧ (collabCandidateScores c10Row c10Prefs "u").length = 2
    ∧ getCollaborativeRecommendations c10Movies ["u", "v"] (some c10Mat) c10Prefs "u" 2
        = [⟨1, "M1", 1⟩]
    ∧ (getCollaborativeRecommendations c10Movies ["u", "v"] (some c10Mat) c10Prefs "u" 2).length
        < 2 := by
  refine ⟨?_, ?_, ?_, ?_⟩
  · intro movies userIds simMatrix prefs userId n r hr
    unfold getCollaborativeRecommendations at hr
    match simMatrix with
    | none => simp at hr
    | some mat =>
      simp only at hr
      by_cases hu : userId ∈ userIds
      · rw [if_pos hu] at hr
        obtain ⟨p, _, hp⟩ := List.mem_filterMap.mp hr
        rcases hfind : movies.find? (fun mv => mv.movie_id = p.1) with _ | mv
        · rw [hfind] at hp; cases hp
        · rw [hfind] at hp
          cases hp
          have h1 : mv ∈ movies := List.mem_of_find?_eq_some hfind
          have h2 : mv.movie_id = p.1 := by
            have := List.find?_some hfind
            simpa using this
          exact h2 ▸ List.mem_map_of_mem Movie.movie_id h1
      · rw [if_neg hu] at hr
        cases hr
  · norm_num [collabCandidateScores, c10Row, c10Prefs_u, c10Prefs_v, sortDescBy, descBy,
      addWeighted]
  · norm_num [getCollaborativeRecommendations, c10Movies, c10Mat, c10Row, c10Prefs_u,
      c10Prefs_v, collabCandidateScores, sortDescBy, descBy, addWeighted, List.find?,
      List.filterMap]
  · norm_num [getCollaborativeRecommendations, c10Movies, c10Mat, c10Row, c10Prefs_u,
      c10Prefs_v, collabCandidateScores, sortDescBy, descBy, addWeighted, List.find?,
      List.filterMap]

/-! ## C6 -/

/-- C6 (amended): provided the queried movie's self-similarity entry is
strictly greater than every other entry in its row, the stable descending
sort places the self entry first, so dropping the first entry removes
exactly the queried movie and every returned item is built from a catalog
position other than the queried one — the output never contains the
queried movie itself.  Without strict maximality, a tied entry at an
earlier position displaces the self entry and the queried movie can be
returned (see the counterexample). -/
theorem content_excludes_queried_movie
    (movies : List Movie) (sim : List (List ℚ)) (title : String) (n : Nat)
    (idx : Nat) (row : List ℚ)
    (hidx : movies.findIdx? (fun mv => mv.title = title) = some idx)
    (hrow : sim.get? idx = some row)
    (hlen : idx < row.length)
    (hmax : ∀ j, j < row.length → j ≠ idx → row.getD j 0 < row.getD idx 0) :
    (sortDescBy Prod.snd row.enum).head? = some (idx, row.getD idx 0)
    ∧ ∀ r ∈ getContentBasedRecommendations movies sim title n,
        ∃ j mv, j ≠ idx ∧ movies.get? j = some mv ∧ r.id = mv.movie_id
          ∧ r.title = mv.title := by
  have hperm : List.Perm (sortDescBy Prod.snd row.enum) row.enum :=
    List.perm_insertionSort _ _
  have hselfval : row[idx]? = some (row.getD idx 0) := by
    rw [List.getElem?_eq_getElem hlen, List.getD_eq_getElem row 0 hlen]
  have hself : (idx, row.getD idx 0) ∈ sortDescBy Prod.snd row.enum := by
    rw [hperm.mem_iff, List.mk_mem_enum_iff_getElem?]
    exact hselfval
  have hLlen : (sortDescBy Prod.snd row.enum).length = row.length := by
    rw [sortDescBy, List.length_insertionSort, List.enum_length]
  have hLne : sortDescBy Prod.snd row.enum ≠ [] := by
    intro h0
    rw [h0] at hLlen
    simp at hLlen
    omega
  obtain ⟨b, t, hht⟩ := List.exists_cons_of_ne_nil hLne
  obtain ⟨i, x⟩ := b
  have hsorted : List.Pairwise (descBy Prod.snd) (sortDescBy Prod.snd row.enum) :=
    List.sorted_insertionSort _ _
  have hbenum : (i, x) ∈ row.enum := by
    rw [← hperm.mem_iff, hht]
    simp
  have hbx : row[i]? = some x := List.mk_mem_enum_iff_getElem?.mp hbenum
  have hbi : i < row.length := by
    by_contra hge
    rw [List.getElem?_eq_none (by omega)] at hbx
    cases hbx
  have hbxval : x = row.getD i 0 := by
    rw [List.getD_eq_getElem row 0 hbi]
    rw [List.getElem?_eq_getElem hbi] at hbx
    exact (Option.some.inj hbx).symm
  have hhead : i = idx ∧ x = row.getD idx 0 := by
    by_cases hi : i = idx
    · subst hi
      exact ⟨rfl, hbxval⟩
    · exfalso
      have hxlt : x < row.getD idx 0 := hbxval ▸ hmax i hbi hi
      have hmem2 : (idx, row.getD idx 0) ∈ (i, x) :: t := hht ▸ hself
      rcases List.mem_cons.mp hmem2 with heq | hmemt
      · cases heq
        exact hi rfl
      · have hrel : descBy Prod.snd (i, x) (idx, row.getD idx 0) := by
          have hps := hht ▸ hsorted
          exact List.rel_of_pairwise_cons hps hmemt
        exact absurd hrel (not_le.mpr hxlt)
  have hht2 : sortDescBy Prod.snd row.enum = (idx, row.getD idx 0) :: t := by
    rw [hht, hhead.1, hhead.2]
  constructor
  · rw [hht2]
    rfl
  · intro r hr
    have hnodupL : (sortDescBy Prod.snd row.enum).Nodup := by
      rw [hperm.nodup_iff]
      exact List.Nodup.of_map Prod.fst (by rw [List.enum_map_fst]; exact List.nodup_range _)
    have htail : ∀ p ∈ t, p.1 ≠ idx := by
      intro p hp hpi
      have hpL : p ∈ sortDescBy Prod.snd row.enum := hht2 ▸ List.mem_cons_of_mem _ hp
      have hpenum : p ∈ row.enum := hperm.mem_iff.mp hpL
      have hpx : row[p.1]? = some p.2 := List.mk_mem_enum_iff_getElem?.mp hpenum
      have hpeq : p = (idx, row.getD idx 0) := by
        obtain ⟨p1, p2⟩ := p
        simp only at hpi
        subst hpi
        rw [hselfval] at hpx
        rw [Option.some.inj hpx]
      rw [hht2] at hnodupL
      exact (List.nodup_cons.mp hnodupL).1 (hpeq ▸ hp)
    have hrowD : sim.getD idx [] = row := by
      rw [List.getD_eq_getElem?_getD, ← List.get?_eq_getElem?, hrow]
      rfl
    simp only [getContentBasedRecommendations, hidx, hrowD] at hr
    rw [hht2] at hr
    simp only [List.drop_succ_cons, List.drop_zero] at hr
    obtain ⟨p, hpmem, hfp⟩ := List.mem_filterMap.mp hr
    obtain ⟨mv, hmv, hrback⟩ := Option.map_eq_some'.mp hfp
    refine ⟨p.1, mv, htail p (List.mem_of_mem_take hpmem), hmv, ?_, ?_⟩
    · rw [← hrback]
    · rw [← hrback]

/-- A two-movie catalog where both movies have identical feature rows:
every similarity entry is 1, so "B"'s self-similarity is tied by "A". -/
def c6Movies : List Movie := [⟨10, "A"⟩, ⟨20, "B"⟩]

/-- The degenerate all-ones similarity matrix of two identical movies. -/
def c6Sim : List (List ℚ) := [[1, 1], [1, 1]]

/-- C6 counterexample: querying "B" (catalog position 1) when position 0
ties its self-similarity makes the stable sort put position 0 first;
dropping that first entry drops movie "A", and the ranker returns the
queried movie "B" itself. -/
theorem content_ranker_returns_queried_movie :
    c6Movies.findIdx? (fun mv => mv.title = "B") = some 1
    ∧ c6Movies.get? 1 = some ⟨20, "B"⟩
    ∧ getContentBasedRecommendations c6Movies c6Sim "B" 1 = [⟨20, "B", 1⟩] :=
  ⟨by decide, by decide, by decide⟩

/-- A catalog and similarity matrix with strictly maximal diagonal used
to instantiate the amended C6 theorem. -/
def c6wMovies : List Movie := [⟨10, "A"⟩, ⟨20, "B"⟩]

/-- An identity-like content similarity matrix (strict self-maxima). -/
def c6wSim : List (List ℚ) := [[1, 0], [0, 1]]

/-- C6 witness: with strict self-maximality (row `[1, 0]` for "A"), the
self entry heads the sort and the single returned item is movie "B",
built from position 1 ≠ 0. -/
theorem content_excludes_queried_movie_witness :
    (sortDescBy Prod.snd ([(1 : ℚ), 0]).enum).head? = some (0, [(1 : ℚ), 0].getD 0 0)
    ∧ ∀ r ∈ getContentBasedRecommendations c6wMovies c6wSim "A" 1,
        ∃ j mv, j ≠ 0 ∧ c6wMovies.get? j = some mv ∧ r.id = mv.movie_id
          ∧ r.title = mv.title :=
  content_excludes_queried_movie c6wMovies c6wSim "A" 1 0 [1, 0]
    (by decide) (by decide) (by decide) (by decide)

/-! ## C1 -/

theorem mem_dedupSeen (k : Int) : ∀ (l : List Int) (seen : List Int),
    k ∈ dedupSeen seen l ↔ k ∈ l ∧ k ∉ seen := by
  intro l
  induction l with
  | nil => intro seen; simp [dedupSeen]
  | cons x xs ih =>
    intro seen
    by_cases hx : x ∈ seen
    · rw [show dedupSeen seen (x :: xs) = dedupSeen seen xs from by simp [dedupSeen, hx]]
      rw [ih]
      constructor
      · rintro ⟨h1, h2⟩
        exact ⟨List.mem_cons_of_mem _ h1, h2⟩
      · rintro ⟨h1, h2⟩
        rcases List.mem_cons.mp h1 with rfl | h1'
        · exact absurd hx h2
        · exact ⟨h1', h2⟩
    · rw [show dedupSeen seen (x :: xs) = x :: dedupSeen (x :: seen) xs from by
        simp [dedupSeen, hx]]
      rw [List.mem_cons, ih]
      constructor
      · rintro (rfl | ⟨h1, h2⟩)
        · exact ⟨List.mem_cons_self _ _, hx⟩
        · exact ⟨List.mem_cons_of_mem _ h1, fun hk => h2 (List.mem_cons_of_mem _ hk)⟩
      · rintro ⟨h1, h2⟩
        by_cases hkx : k = x
        · exact Or.inl hkx
        · rcases List.mem_cons.mp h1 with rfl | h1'
          · exact Or.inl rfl
          · exact Or.inr ⟨h1', fun hk => (List.mem_cons.mp hk).elim hkx h2⟩

theorem mem_unionIds (content collab : List RecItem) (k : Int) :
    k ∈ unionIds content collab ↔
      k ∈ content.map RecItem.id ∨ k ∈ collab.map RecItem.id := by
  unfold unionIds
  rw [mem_dedupSeen]
  simp

theorem recDict_id (recs : List RecItem) (m : Int) (r : RecItem)
    (h : recDict recs m = some r) : r.id = m := by
  have := List.find?_some h
  simpa using this

theorem recDict_isSome_of_mem (recs : List RecItem) (m : Int)
    (h : m ∈ recs.map RecItem.id) : (recDict recs m).isSome := by
  rw [recDict, List.find?_isSome]
  obtain ⟨r, hr, hid⟩ := List.mem_map.mp h
  exact ⟨r, List.mem_reverse.mpr hr, by simp [hid]⟩

theorem mergeItem_fields (content collab : List RecItem) (p : Int × ℚ) (r : RecItem)
    (h : mergeItem content collab p = some r) : r.id = p.1 ∧ r.score = p.2 := by
  unfold mergeItem at h
  rcases h1 : recDict content p.1 with _ | r1
  · rw [h1] at h
    rcases h2 : recDict collab p.1 with _ | r2
    · rw [h2] at h
      cases h
    · rw [h2] at h
      cases h
      exact ⟨recDict_id collab p.1 r2 h2, rfl⟩
  · rw [h1] at h
    cases h
    exact ⟨recDict_id content p.1 r1 h1, rfl⟩

theorem mergeItem_isSome (content collab : List RecItem) (p : Int × ℚ)
    (h : p.1 ∈ unionIds content collab) : (mergeItem content collab p).isSome := by
  rcases h1 : recDict content p.1 with _ | r1
  · rcases h2 : recDict collab p.1 with _ | r2
    · exfalso
      rcases (mem_unionIds content collab p.1).mp h with hc | hk
      · have hs := recDict_isSome_of_mem content p.1 hc
        rw [h1] at hs
        simp at hs
      · have hs := recDict_isSome_of_mem collab p.1 hk
        rw [h2] at hs
        simp at hs
    · simp [mergeItem, h1, h2]
  · simp [mergeItem, h1]

theorem filterMap_length_of_all_isSome {α β : Type} (f : α → Option β) :
    ∀ l : List α, (∀ a ∈ l, (f a).isSome) → (l.filterMap f).length = l.length := by
  intro l
  induction l with
  | nil => intro _; rfl
  | cons a xs ih =>
    intro hall
    have ha := hall a (List.mem_cons_self _ _)
    rcases hfa : f a with _ | b
    · rw [hfa] at ha
      cases ha
    · rw [List.filterMap_cons, hfa]
      simp only [List.length_cons]
      rw [ih (fun x hx => hall x (List.mem_cons_of_mem _ hx))]

/-- The content side of the spec's worked merge example
(A with score 0.9, B with score 0.4; ids 1, 2, 3 stand for A, B, C). -/
def c1Content : List RecItem := [⟨1, "A", 9/10⟩, ⟨2, "B", 4/10⟩]
/-- The collaborative side of the worked merge example
(B with score 0.8, C with score 0.6). -/
def c1Collab : List RecItem := [⟨2, "B", 8/10⟩, ⟨3, "C", 6/10⟩]

/-- C1: for non-empty content and collaborative result lists, the hybrid
merger scores every movie id of the union of the two sides with
`content_weight * content_score + collaborative_weight * collab_score`
(a side's score defaulting to 0 when the movie is absent from it) and
returns the top `n` of these by descending score: every returned item
carries the hybrid score of its id, the output is sorted descending, has
length `min n (size of the union)`, and dominates every scored id it
leaves out; on the spec's worked example (content A:0.9, B:0.4 and
collaborative B:0.8, C:0.6 with weights 0.7/0.3) it returns
[A:0.63, B:0.52, C:0.18]. -/
theorem hybrid_merge_weighted_topn :
    (∀ (cw kw : ℚ) (content collab : List RecItem) (n : Nat),
      content ≠ [] → collab ≠ [] →
      (∀ r ∈ mergeRecommendations cw kw content collab n,
        r.id ∈ unionIds content collab
        ∧ r.score = cw * sideScore content r.id + kw * sideScore collab r.id)
      ∧ List.Pairwise (fun a b : RecItem => b.score ≤ a.score)
          (mergeRecommendations cw kw content collab n)
      ∧ (mergeRecommendations cw kw content collab n).length
          = min n (unionIds content collab).length
      ∧ (∀ m ∈ unionIds content collab,
          m ∉ (mergeRecommendations cw kw content collab n).map RecItem.id →
          ∀ r ∈ mergeRecommendations cw kw content collab n,
            cw * sideScore content m + kw * sideScore collab m ≤ r.score))
    ∧ (∀ (recs : List RecItem) (m : Int), m ∉ recs.map RecItem.id → sideScore recs m = 0)
    ∧ mergeRecommendations (7/10) (3/10) c1Content c1Collab 3
        = [⟨1, "A", 63/100⟩, ⟨2, "B", 52/100⟩, ⟨3, "C", 18/100⟩] := by
  refine ⟨?_, ?_, ?_⟩
  · intro cw kw content collab n hc hk
    obtain ⟨c0, cs, rfl⟩ := List.exists_cons_of_ne_nil hc
    obtain ⟨k0, ks, rfl⟩ := List.exists_cons_of_ne_nil hk
    have hmr : mergeRecommendations cw kw (c0 :: cs) (k0 :: ks) n
        = ((sortDescBy Prod.snd ((unionIds (c0 :: cs) (k0 :: ks)).map
            (fun m => (m, hybridScore cw kw (c0 :: cs) (k0 :: ks) m)))).take n).filterMap
            (mergeItem (c0 :: cs) (k0 :: ks)) := rfl
    have hSperm : List.Perm
        (sortDescBy Prod.snd ((unionIds (c0 :: cs) (k0 :: ks)).map
          (fun m => (m, hybridScore cw kw (c0 :: cs) (k0 :: ks) m))))
        ((unionIds (c0 :: cs) (k0 :: ks)).map
          (fun m => (m, hybridScore cw kw (c0 :: cs) (k0 :: ks) m))) :=
      List.perm_insertionSort _ _
    have hmemS : ∀ p ∈ sortDescBy Prod.snd ((unionIds (c0 :: cs) (k0 :: ks)).map
          (fun m => (m, hybridScore cw kw (c0 :: cs) (k0 :: ks) m))),
        p.1 ∈ unionIds (c0 :: cs) (k0 :: ks)
        ∧ p.2 = hybridScore cw kw (c0 :: cs) (k0 :: ks) p.1 := by
      intro p hp
      obtain ⟨m, hm, hpm⟩ := List.mem_map.mp (hSperm.mem_iff.mp hp)
      obtain rfl := hpm.symm
      exact ⟨hm, rfl⟩
    have hpair : List.Pairwise (descBy Prod.snd)
        (sortDescBy Prod.snd ((unionIds (c0 :: cs) (k0 :: ks)).map
          (fun m => (m, hybridScore cw kw (c0 :: cs) (k0 :: ks) m)))) :=
      List.sorted_insertionSort _ _
    have hsomeS : ∀ p ∈ (sortDescBy Prod.snd ((unionIds (c0 :: cs) (k0 :: ks)).map
          (fun m => (m, hybridScore cw kw (c0 :: cs) (k0 :: ks) m)))).take n,
        (mergeItem (c0 :: cs) (k0 :: ks) p).isSome := fun p hp =>
      mergeItem_isSome _ _ p (hmemS p (List.mem_of_mem_take hp)).1
    refine ⟨?_, ?_, ?_, ?_⟩
    · intro r hr
      rw [hmr] at hr
      obtain ⟨p, hp, hfp⟩ := List.mem_filterMap.mp hr
      obtain ⟨hid, hsc⟩ := mergeItem_fields _ _ p r hfp
      obtain ⟨hin, hval⟩ := hmemS p (List.mem_of_mem_take hp)
      refine ⟨hid ▸ hin, ?_⟩
      rw [hsc, hval, hid]
      rfl
    · rw [hmr]
      refine (List.pairwise_filterMap).mpr (hpair.sublist (List.take_sublist n _) |>.imp ?_)
      intro p q hpq r hrp s hsq
      rw [Option.mem_def] at hrp hsq
      rw [(mergeItem_fields _ _ p r hrp).2, (mergeItem_fields _ _ q s hsq).2]
      exact hpq
    · rw [hmr, filterMap_length_of_all_isSome _ _ hsomeS, List.length_take]
      unfold sortDescBy
      rw [List.length_insertionSort, List.length_map]
    · intro m hm hnotin r hr
      have hmS : (m, hybridScore cw kw (c0 :: cs) (k0 :: ks) m) ∈
          sortDescBy Prod.snd ((unionIds (c0 :: cs) (k0 :: ks)).map
            (fun m => (m, hybridScore cw kw (c0 :: cs) (k0 :: ks) m))) :=
        hSperm.mem_iff.mpr (List.mem_map_of_mem _ hm)
      rw [← List.take_append_drop n (sortDescBy Prod.snd ((unionIds (c0 :: cs) (k0 :: ks)).map
        (fun m => (m, hybridScore cw kw (c0 :: cs) (k0 :: ks) m))))] at hmS
      rcases List.mem_append.mp hmS with htk | hdr
      · exfalso
        have hsome := mergeItem_isSome (c0 :: cs) (k0 :: ks)
          (m, hybridScore cw kw (c0 :: cs) (k0 :: ks) m) hm
        obtain ⟨r', hr'⟩ := Option.isSome_iff_exists.mp hsome
        have hr'mem : r' ∈ mergeRecommendations cw kw (c0 :: cs) (k0 :: ks) n := by
          rw [hmr]
          exact List.mem_filterMap.mpr ⟨_, htk, hr'⟩
        have hr'id : r'.id = m := (mergeItem_fields _ _ _ r' hr').1
        exact hnotin (hr'id ▸ List.mem_map_of_mem RecItem.id hr'mem)
      · have hpair2 := hpair
        rw [← List.take_append_drop n (sortDescBy Prod.snd ((unionIds (c0 :: cs) (k0 :: ks)).map
          (fun m => (m, hybridScore cw kw (c0 :: cs) (k0 :: ks) m))))] at hpair2
        obtain ⟨-, -, hcross⟩ := List.pairwise_append.mp hpair2
        rw [hmr] at hr
        obtain ⟨p, hp, hfp⟩ := List.mem_filterMap.mp hr
        have hrel := hcross p hp _ hdr
        have hsc := (mergeItem_fields _ _ p r hfp).2
        rw [hsc]
        exact hrel
  · intro recs m hm
    unfold sideScore
    rcases hfind : recDict recs m with _ | r
    · simp
    · exfalso
      have hrmem : r ∈ recs.reverse := List.mem_of_find?_eq_some hfind
      have hid : r.id = m := recDict_id recs m r hfind
      exact hm (hid ▸ List.mem_map_of_mem RecItem.id (List.mem_reverse.mp hrmem))
  · norm_num [mergeRecommendations, c1Content, c1Collab, unionIds, dedupSeen, hybridScore,
      sideScore, recDict, mergeItem, sortDescBy, descBy, List.find?, List.filterMap]
